import Mathlib

/-!
Verification of the SRT-to-audio pipeline in `bark/srt_gen.py`.

Strings are modelled as `List Char`; the Python string operations used by the
source (`str.strip`, `str.split` with an explicit separator, `" ".join`,
`int(...)`) are embedded below.  Exceptions (`ValueError` from `int()` or from
tuple unpacking) are modelled with `Except`/`Option`.  Audio is modelled
symbolically: an `AudioSegment` is a list of tokens, each either a stretch of
silence of a rational duration in milliseconds or the synthesized audio for a
cue text; the duration of a synthesized buffer is an arbitrary parameter
`synthLen` supplied to the pipeline.
-/

namespace BarkSrt

/-- Python `str.strip()`: remove leading and trailing whitespace. -/
def pyStrip (s : List Char) : List Char :=
  ((s.dropWhile Char.isWhitespace).reverse.dropWhile Char.isWhitespace).reverse

/-- Python `str.split(sep)` for a single-character separator `sep`:
split at every occurrence, keeping empty pieces. -/
def pySplit1 (sep : Char) : List Char → List (List Char)
  | [] => [[]]
  | c :: cs =>
    if c = sep then
      [] :: pySplit1 sep cs
    else
      match pySplit1 sep cs with
      | [] => [[c]]
      | r :: rs => (c :: r) :: rs

/-- Worker for `pySplitS`, with fuel bounding the number of scanned positions. -/
def pySplitSGo (sep : List Char) : Nat → List Char → List (List Char)
  | _, [] => [[]]
  | 0, s => [s]
  | fuel + 1, c :: cs =>
    if sep ≠ [] ∧ sep.isPrefixOf (c :: cs) then
      [] :: pySplitSGo sep fuel ((c :: cs).drop sep.length)
    else
      match pySplitSGo sep fuel cs with
      | [] => [[c]]
      | r :: rs => (c :: r) :: rs

/-- Python `str.split(sep)` for a multi-character separator. -/
def pySplitS (sep s : List Char) : List (List Char) :=
  pySplitSGo sep s.length s

/-- Value of a digit string, most significant digit first. -/
def digitsToNat (s : List Char) : Nat :=
  s.foldl (fun n c => n * 10 + (c.toNat - 48)) 0

/-- The digits of a decimal numeral: a non-empty all-digit string. -/
def digitsVal (s : List Char) : Option Nat :=
  if s ≠ [] ∧ s.all Char.isDigit then some (digitsToNat s) else none

/-- Python `int(s)` after stripping: optional sign, then decimal digits;
`none` models the `ValueError` raised on any other shape. -/
def pyIntCore : List Char → Option Int
  | [] => none
  | c :: cs =>
    if c = '-' then (digitsVal cs).map (fun n => -(n : Int))
    else if c = '+' then (digitsVal cs).map (fun n => (n : Int))
    else (digitsVal (c :: cs)).map (fun n => (n : Int))

/-- Python `int(s)`: strip whitespace, optional sign, then decimal digits. -/
def pyInt (s : List Char) : Option Int :=
  pyIntCore (pyStrip s)

/-- One parsed subtitle entry (`subtitle_entries` element in `parse_srt`). -/
structure Cue where
  idx : List Char
  start_time : ℚ
  end_time : ℚ
  text : List Char
  deriving DecidableEq, Repr

/-- `time_to_seconds` from `srt_gen.py`: split on `":"` into exactly three
parts, split the last on `","` into exactly two, convert each with `int` and
combine; `none` models the `ValueError` raised by unpacking or by `int`. -/
def time_to_seconds (time_str : List Char) : Option ℚ :=
  match pySplit1 ':' time_str with
  | [hours, minutes, secs] =>
    match pySplit1 ',' secs with
    | [seconds, milliseconds] =>
      match pyInt hours, pyInt minutes, pyInt seconds, pyInt milliseconds with
      | some H, some M, some S, some MS =>
          some ((H : ℚ) * 3600 + (M : ℚ) * 60 + (S : ℚ) + (MS : ℚ) / 1000)
      | _, _, _, _ => none
    | _ => none
  | _ => none

/-- The literal cue-time separator `" --> "`. -/
def arrowSep : List Char := [' ', '-', '-', '>', ' ']

/-- The lines of one block, as computed in `parse_srt`. -/
def blockLines (block : List Char) : List (List Char) :=
  pySplit1 '\n' (pyStrip block)

/-- The stripped second line of a block (`time_range` in `parse_srt`). -/
def timeRangeOf (block : List Char) : List Char :=
  pyStrip (((blockLines block).drop 1).headD [])

/-- Processing of one block inside the loop of `parse_srt`:
`.ok none` models `continue` (the block is skipped), `.ok (some c)` a parsed
cue, and `.error ()` an uncaught `ValueError` (from the 2-tuple unpacking of
the `" --> "` split or from `time_to_seconds`). -/
def parse_block (block : List Char) : Except Unit (Option Cue) :=
  if (blockLines block).length < 3 then .ok none
  else if (pySplitS arrowSep (timeRangeOf block)).length ≤ 1 then .ok none
  else
    match pySplitS arrowSep (timeRangeOf block) with
    | [st, en] =>
      match time_to_seconds st, time_to_seconds en with
      | some s, some e =>
          .ok (some ⟨pyStrip ((blockLines block).headD []), s, e,
            pyStrip (List.intercalate [' '] ((blockLines block).drop 2))⟩)
      | _, _ => .error ()
    | _ => .error ()

/-- The loop of `parse_srt` over all blocks, in order. -/
def parse_blocks : List (List Char) → Except Unit (List Cue)
  | [] => .ok []
  | b :: bs =>
    match parse_block b with
    | .error e => .error e
    | .ok none => parse_blocks bs
    | .ok (some c) => (parse_blocks bs).map (c :: ·)

/-- `parse_srt` from `srt_gen.py`, applied to the file's text content:
strip, split on blank lines, process each block. -/
def parse_srt (content : List Char) : Except Unit (List Cue) :=
  parse_blocks (pySplitS ['\n', '\n'] (pyStrip content))

/-- A symbolic audio token: a stretch of silence of a given duration in
milliseconds, or the audio synthesized for a cue text
(`generate_audio` + `numpy_array_to_audiosegment` in the source). -/
inductive AudioTok where
  | silence (ms : ℚ)
  | synth (text : List Char)
  deriving DecidableEq, Repr

/-- `generate_silence` from `srt_gen.py`, as a symbolic audio segment. -/
def generate_silence (duration_ms : ℚ) : List AudioTok :=
  [AudioTok.silence duration_ms]

/-- The gap computation `max(0, (start_time - previous_end_time) * 1000)`
of `srt_to_audio`, in milliseconds. -/
def silence_duration (previous_end_time : ℚ) (entry : Cue) : ℚ :=
  max 0 ((entry.start_time - previous_end_time) * 1000)

/-- The duration in milliseconds of a symbolic audio segment, given the
duration `synthLen t` of the audio synthesized for text `t`
(`len(...)` on a pydub `AudioSegment`). -/
def bufLen (synthLen : List Char → ℚ) (buf : List AudioTok) : ℚ :=
  (buf.map fun t => match t with
    | .silence ms => ms
    | .synth txt => synthLen txt).sum

/-- The loop state of `srt_to_audio`: the running buffer `final_audio`,
the timeline cursor `previous_end_time`, the next `part_number`, and the
list of exported files so far, each a pair (part number, contents). -/
structure LoopState where
  final_audio : List AudioTok
  previous_end_time : ℚ
  part_number : Nat
  exported : List (Nat × List AudioTok)
  deriving DecidableEq, Repr

/-- The state on entry to the loop of `srt_to_audio`:
empty buffer, `previous_end_time = 0`, `part_number = 1`, nothing exported. -/
def initState : LoopState :=
  ⟨[], 0, 1, []⟩

/-- One iteration of the loop of `srt_to_audio`, for the cue `entry` at
zero-based position `i` (from `enumerate`): append the clamped gap silence,
append synthesized audio when the stripped text is non-empty, advance the
cursor, and export the buffer when `(i + 1) % chunk_size == 0`. -/
def process_cue (chunk_size : Nat) (st : LoopState) (i : Nat) (entry : Cue) : LoopState :=
  let gap := silence_duration st.previous_end_time entry
  let audio1 := st.final_audio ++ generate_silence gap
  let audio2 := if pyStrip entry.text ≠ [] then audio1 ++ [AudioTok.synth entry.text] else audio1
  if (i + 1) % chunk_size = 0 then
    { final_audio := []
      previous_end_time := entry.end_time
      part_number := st.part_number + 1
      exported := st.exported ++ [(st.part_number, audio2)] }
  else
    { final_audio := audio2
      previous_end_time := entry.end_time
      part_number := st.part_number
      exported := st.exported }

/-- The loop of `srt_to_audio` over the parsed subtitles, with `i` the
zero-based position of the first cue of `entries`. -/
def run_loop (chunk_size : Nat) : Nat → LoopState → List Cue → LoopState
  | _, st, [] => st
  | i, st, entry :: entries =>
      run_loop chunk_size (i + 1) (process_cue chunk_size st i entry) entries

/-- The cue-processing and export part of `srt_to_audio`: run the loop over
all subtitles, then export the remaining buffer when `len(final_audio) > 0`.
Returns the exported files in order, each a pair (part number, contents). -/
def srt_to_audio_core (subtitles : List Cue) (chunk_size : Nat)
    (synthLen : List Char → ℚ) : List (Nat × List AudioTok) :=
  let st := run_loop chunk_size 0 initState subtitles
  if 0 < bufLen synthLen st.final_audio then
    st.exported ++ [(st.part_number, st.final_audio)]
  else
    st.exported

/-- The observable outcome of a `srt_to_audio` invocation. -/
inductive RunOutcome where
  | missingInput
  | parseError
  | done (outputs : List (Nat × List AudioTok))
  deriving DecidableEq

/-- `srt_to_audio` from `srt_gen.py`.  `input_exists` models
`os.path.exists(srt_file_path)` and `content` the text of the input file.
The first component of the result records whether `os.makedirs(output_dir)`
was reached; the failing `FileNotFoundError` check comes before it, and
parsing comes after it. -/
def srt_to_audio (input_exists : Bool) (content : List Char) (chunk_size : Nat)
    (synthLen : List Char → ℚ) : Bool × RunOutcome :=
  if input_exists = false then
    (false, .missingInput)
  else
    match parse_srt content with
    | .error _ => (true, .parseError)
    | .ok subtitles => (true, .done (srt_to_audio_core subtitles chunk_size synthLen))

/-! Derived descriptions of the loop, used to state and prove the claims:
the audio tokens contributed by one cue, by a segment of consecutive cues,
the cursor value after a segment, and the predicate "these cues contribute
zero audio". -/

/-- The audio tokens appended to the running buffer for one cue processed
with cursor value `prev`: the clamped gap silence, then the synthesized
audio when the stripped text is non-empty. -/
def cueToks (prev : ℚ) (entry : Cue) : List AudioTok :=
  generate_silence (silence_duration prev entry) ++
    (if pyStrip entry.text ≠ [] then [AudioTok.synth entry.text] else [])

/-- The audio tokens contributed by a segment of consecutive cues, starting
from cursor value `prev`. -/
def assembleSeg (prev : ℚ) : List Cue → List AudioTok
  | [] => []
  | c :: cs => cueToks prev c ++ assembleSeg c.end_time cs

/-- The cursor value after processing a segment of cues, starting from
cursor value `prev`. -/
def endAfter (prev : ℚ) : List Cue → ℚ
  | [] => prev
  | c :: cs => endAfter c.end_time cs

/-- Starting from cursor value `prev`, every cue of the list has empty
stripped text and a non-positive gap, so it contributes zero audio. -/
def zeroContrib (prev : ℚ) : List Cue → Prop
  | [] => True
  | c :: cs => pyStrip c.text = [] ∧ c.start_time ≤ prev ∧ zeroContrib c.end_time cs

/-! ### Lemmas about the loop of `srt_to_audio` -/

lemma process_cue_no_export (cs : Nat) (st : LoopState) (i : Nat) (c : Cue)
    (h : (i + 1) % cs ≠ 0) :
    process_cue cs st i c =
      ⟨st.final_audio ++ cueToks st.previous_end_time c, c.end_time,
        st.part_number, st.exported⟩ := by
  unfold process_cue cueToks
  rw [if_neg h]
  split <;> simp

lemma process_cue_export (cs : Nat) (st : LoopState) (i : Nat) (c : Cue)
    (h : (i + 1) % cs = 0) :
    process_cue cs st i c =
      ⟨[], c.end_time, st.part_number + 1,
        st.exported ++
          [(st.part_number, st.final_audio ++ cueToks st.previous_end_time c)]⟩ := by
  unfold process_cue cueToks
  rw [if_pos h]
  split <;> simp

lemma run_loop_append (cs : Nat) (xs : List Cue) :
    ∀ (i : Nat) (st : LoopState) (ys : List Cue),
      run_loop cs i st (xs ++ ys) = run_loop cs (i + xs.length) (run_loop cs i st xs) ys := by
  induction xs with
  | nil => intro i st ys; simp [run_loop]
  | cons x xs ih =>
    intro i st ys
    show run_loop cs (i + 1) (process_cue cs st i x) (xs ++ ys)
        = run_loop cs (i + (xs.length + 1)) (run_loop cs (i + 1) (process_cue cs st i x) xs) ys
    rw [ih]
    have harith : i + 1 + xs.length = i + (xs.length + 1) := by omega
    rw [harith]

lemma assembleSeg_append (xs : List Cue) :
    ∀ (prev : ℚ) (ys : List Cue),
      assembleSeg prev (xs ++ ys)
        = assembleSeg prev xs ++ assembleSeg (endAfter prev xs) ys := by
  induction xs with
  | nil => intro prev ys; simp [assembleSeg, endAfter]
  | cons x xs ih => intro prev ys; simp [assembleSeg, endAfter, ih]

lemma endAfter_append (xs : List Cue) :
    ∀ (prev : ℚ) (ys : List Cue),
      endAfter prev (xs ++ ys) = endAfter (endAfter prev xs) ys := by
  induction xs with
  | nil => intro prev ys; simp [endAfter]
  | cons x xs ih => intro prev ys; simp [endAfter, ih]

lemma run_loop_no_boundary (cs : Nat) (xs : List Cue) :
    ∀ (i : Nat) (st : LoopState),
      (∀ j < xs.length, (i + j + 1) % cs ≠ 0) →
      run_loop cs i st xs =
        ⟨st.final_audio ++ assembleSeg st.previous_end_time xs,
          endAfter st.previous_end_time xs, st.part_number, st.exported⟩ := by
  induction xs with
  | nil => intro i st _; simp [run_loop, assembleSeg, endAfter]
  | cons x xs ih =>
    intro i st h
    rw [run_loop, process_cue_no_export cs st i x (h 0 (by simp))]
    rw [ih (i + 1) _ ?_]
    · simp [assembleSeg, endAfter]
    · intro j hj
      have harith : i + 1 + j + 1 = i + (j + 1) + 1 := by omega
      rw [harith]
      exact h (j + 1) (by simpa using Nat.succ_lt_succ hj)

lemma run_loop_full_chunk (cs : Nat) (hcs : 0 < cs) (i : Nat) (st : LoopState)
    (xs : List Cue) (hi : i % cs = 0) (hlen : xs.length = cs) :
    run_loop cs i st xs =
      ⟨[], endAfter st.previous_end_time xs, st.part_number + 1,
        st.exported ++
          [(st.part_number,
            st.final_audio ++ assembleSeg st.previous_end_time xs)]⟩ := by
  have hne : xs ≠ [] := by
    intro hx; rw [hx] at hlen; simp at hlen; omega
  have hsplit := List.dropLast_append_getLast hne
  conv_lhs => rw [← hsplit]
  rw [run_loop_append]
  rw [run_loop_no_boundary cs xs.dropLast i st ?_]
  · have hdl : xs.dropLast.length = cs - 1 := by
      rw [List.length_dropLast, hlen]
    rw [hdl]
    have hbd : (i + (cs - 1)) + 1 = i + cs := by omega
    show run_loop cs (i + (cs - 1)) _ [xs.getLast hne] = _
    rw [run_loop, process_cue_export]
    · rw [run_loop]
      have h1 : assembleSeg st.previous_end_time xs.dropLast
            ++ cueToks (endAfter st.previous_end_time xs.dropLast) (xs.getLast hne)
          = assembleSeg st.previous_end_time xs := by
        conv_rhs => rw [← hsplit]
        rw [assembleSeg_append]
        simp [assembleSeg]
      have h2 : endAfter (endAfter st.previous_end_time xs.dropLast) [xs.getLast hne]
          = endAfter st.previous_end_time xs := by
        rw [← endAfter_append, hsplit]
      simp only [endAfter] at h2
      simp [h1, h2, List.append_assoc]
    · rw [hbd, Nat.add_mod, hi, Nat.mod_self]
      simp
  · intro j hj
    rw [List.length_dropLast, hlen] at hj
    have : (i + j + 1) % cs = j + 1 := by
      rw [Nat.add_assoc, Nat.add_mod, hi]
      simp [Nat.mod_eq_of_lt (by omega : j + 1 < cs)]
    omega

lemma run_loop_chunks (cs : Nat) (hcs : 0 < cs) :
    ∀ (k : Nat) (xs : List Cue) (i : Nat) (st : LoopState),
      i % cs = 0 → xs.length = k * cs → st.final_audio = [] →
      (run_loop cs i st xs).final_audio = [] := by
  intro k
  induction k with
  | zero =>
    intro xs i st _ hlen hfa
    have : xs = [] := by
      cases xs with
      | nil => rfl
      | cons a l => simp at hlen
    rw [this, run_loop, hfa]
  | succ k ih =>
    intro xs i st hi hlen hfa
    have hxslen : cs ≤ xs.length := by rw [hlen]; calc
      cs = 1 * cs := (Nat.one_mul cs).symm
      _ ≤ (k + 1) * cs := Nat.mul_le_mul_right cs (by omega)
    have htake : (xs.take cs).length = cs := by rw [List.length_take]; omega
    have hdrop : (xs.drop cs).length = k * cs := by
      rw [List.length_drop, hlen, Nat.succ_mul]; omega
    rw [← List.take_append_drop cs xs, run_loop_append,
      run_loop_full_chunk cs hcs i st (xs.take cs) hi htake]
    refine ih (xs.drop cs) _ _ ?_ hdrop rfl
    rw [htake, Nat.add_mod, hi, Nat.mod_self]
    simp

lemma run_loop_parts (cs : Nat) (xs : List Cue) :
    ∀ (i : Nat) (st : LoopState),
      st.exported.map Prod.fst = List.range' 1 (st.part_number - 1) →
      1 ≤ st.part_number →
      (run_loop cs i st xs).exported.map Prod.fst
          = List.range' 1 ((run_loop cs i st xs).part_number - 1)
        ∧ 1 ≤ (run_loop cs i st xs).part_number := by
  induction xs with
  | nil => intro i st h h1; exact ⟨h, h1⟩
  | cons x xs ih =>
    intro i st h h1
    rw [run_loop]
    by_cases hb : (i + 1) % cs = 0
    · rw [process_cue_export cs st i x hb]
      refine ih (i + 1) _ ?_ (by simp)
      have hp : st.part_number + 1 - 1 = (st.part_number - 1) + 1 := by omega
      simp only [List.map_append, h, List.map_cons, List.map_nil, hp,
        List.range'_1_concat]
      have : 1 + (st.part_number - 1) = st.part_number := by omega
      rw [this]
    · rw [process_cue_no_export cs st i x hb]
      exact ih (i + 1) _ h h1

lemma bufLen_append (sl : List Char → ℚ) (a b : List AudioTok) :
    bufLen sl (a ++ b) = bufLen sl a + bufLen sl b := by
  simp [bufLen]

lemma bufLen_nil (sl : List Char → ℚ) : bufLen sl [] = 0 := by
  simp [bufLen]

lemma silence_duration_of_le (prev : ℚ) (c : Cue) (h : c.start_time ≤ prev) :
    silence_duration prev c = 0 := by
  unfold silence_duration
  have : (c.start_time - prev) * 1000 ≤ 0 := by nlinarith
  exact max_eq_left this

lemma zeroContrib_bufLen (sl : List Char → ℚ) (l : List Cue) :
    ∀ prev : ℚ, zeroContrib prev l → bufLen sl (assembleSeg prev l) = 0 := by
  induction l with
  | nil => intro prev _; simp [assembleSeg, bufLen]
  | cons c cs ih =>
    intro prev h
    obtain ⟨ht, hs, hz⟩ := h
    rw [assembleSeg, bufLen_append, ih c.end_time hz]
    simp [cueToks, ht, generate_silence, bufLen, silence_duration_of_le prev c hs]

lemma endAfter_replicate (e : ℚ) (c : Cue) (hc : c.end_time = e) :
    ∀ n : Nat, endAfter e (List.replicate n c) = e := by
  intro n
  induction n with
  | zero => simp [endAfter]
  | succ n ih => simp [List.replicate_succ, endAfter, hc, ih]

lemma assembleSeg_replicate (e : ℚ) (c : Cue) (hc : c.end_time = e) :
    ∀ n : Nat, assembleSeg e (List.replicate n c) = (List.replicate n (cueToks e c)).flatten := by
  intro n
  induction n with
  | zero => simp [assembleSeg]
  | succ n ih => simp [List.replicate_succ, assembleSeg, hc, ih]

lemma bufLen_join_replicate (sl : List Char → ℚ) (l : List AudioTok) :
    ∀ n : Nat, bufLen sl ((List.replicate n l).flatten) = n * bufLen sl l := by
  intro n
  induction n with
  | zero => simp [bufLen]
  | succ n ih =>
    rw [List.replicate_succ, List.flatten_cons, bufLen_append, ih]
    push_cast
    ring

/-! ### Lemmas about the string primitives and the parser -/

lemma pySplit1_ne_nil (sep : Char) (s : List Char) : pySplit1 sep s ≠ [] := by
  cases s with
  | nil => simp [pySplit1]
  | cons c cs =>
    rw [pySplit1]
    split
    · simp
    · cases h : pySplit1 sep cs <;> simp

lemma pySplit1_sepFree (sep : Char) (s : List Char) (h : ∀ a ∈ s, a ≠ sep) :
    pySplit1 sep s = [s] := by
  induction s with
  | nil => rfl
  | cons c cs ih =>
    rw [pySplit1, if_neg (h c (by simp))]
    rw [ih (fun a ha => h a (by simp [ha]))]

lemma pySplit1_append_sep (sep : Char) (xs ys : List Char) (h : ∀ a ∈ xs, a ≠ sep) :
    pySplit1 sep (xs ++ sep :: ys) = xs :: pySplit1 sep ys := by
  induction xs with
  | nil => simp [pySplit1]
  | cons c cs ih =>
    rw [List.cons_append, pySplit1, if_neg (h c (by simp))]
    rw [ih (fun a ha => h a (by simp [ha]))]

lemma digit_not_whitespace (c : Char) (h : c.isDigit) : c.isWhitespace = false := by
  by_contra hw
  rw [Bool.not_eq_false] at hw
  have hc : ((c = ' ' ∨ c = '\t') ∨ c = '\r') ∨ c = '\n' := by
    simpa [Char.isWhitespace] using hw
  rcases hc with ((h1 | h1) | h1) | h1 <;> (subst h1; exact absurd h (by decide))

lemma pyStrip_digits (s : List Char) (h : s.all Char.isDigit) : pyStrip s = s := by
  unfold pyStrip
  have hd : ∀ (l : List Char), l.all Char.isDigit → l.dropWhile Char.isWhitespace = l := by
    intro l hl
    cases l with
    | nil => rfl
    | cons c cs =>
      rw [List.dropWhile_cons_of_neg]
      simp only [List.all_cons, Bool.and_eq_true] at hl
      simp [digit_not_whitespace c hl.1]
  rw [hd s h, hd s.reverse (by simpa using h), List.reverse_reverse]

lemma digit_ne_of_not_digit (c x : Char) (h : c.isDigit) (hx : x.isDigit = false) :
    c ≠ x := by
  intro he; rw [he, hx] at h; exact Bool.false_ne_true h

lemma pyInt_digits (s : List Char) (hne : s ≠ []) (h : s.all Char.isDigit) :
    pyInt s = some ((digitsToNat s : Int)) := by
  unfold pyInt
  rw [pyStrip_digits s h]
  cases s with
  | nil => exact absurd rfl hne
  | cons c cs =>
    simp only [List.all_cons, Bool.and_eq_true] at h
    rw [pyIntCore, if_neg (digit_ne_of_not_digit c '-' h.1 (by decide)),
      if_neg (digit_ne_of_not_digit c '+' h.1 (by decide))]
    unfold digitsVal
    rw [if_pos ⟨by simp, by simp [h.1, h.2]⟩]
    rfl

lemma parse_block_short (b : List Char) (h : (blockLines b).length < 3) :
    parse_block b = .ok none := by
  unfold parse_block
  rw [if_pos h]

lemma parse_block_no_arrow (b : List Char)
    (h : (pySplitS arrowSep (timeRangeOf b)).length ≤ 1) :
    parse_block b = .ok none := by
  unfold parse_block
  by_cases h3 : (blockLines b).length < 3
  · rw [if_pos h3]
  · rw [if_neg h3, if_pos h]

lemma parse_block_error_shape (b : List Char) (h : parse_block b = .error ()) :
    ¬ (blockLines b).length < 3 ∧ 2 ≤ (pySplitS arrowSep (timeRangeOf b)).length := by
  by_cases h3 : (blockLines b).length < 3
  · rw [parse_block_short b h3] at h; cases h
  · refine ⟨h3, ?_⟩
    by_cases ha : (pySplitS arrowSep (timeRangeOf b)).length ≤ 1
    · rw [parse_block_no_arrow b ha] at h; cases h
    · omega

lemma parse_blocks_error (bs : List (List Char)) (h : parse_blocks bs = .error ()) :
    ∃ b ∈ bs, parse_block b = .error () := by
  induction bs with
  | nil => cases h
  | cons b bs ih =>
    rw [parse_blocks] at h
    revert h
    split
    · intro h
      rename_i e heq
      exact ⟨b, by simp, by cases e; exact heq⟩
    · intro h
      obtain ⟨b', hb', he⟩ := ih h
      exact ⟨b', by simp [hb'], he⟩
    · intro h
      rename_i c heq
      obtain ⟨b', hb', he⟩ := ih (by
        cases hpb : parse_blocks bs with
        | error e => cases e; rfl
        | ok l => rw [hpb] at h; cases h)
      exact ⟨b', by simp [hb'], he⟩

lemma parse_blocks_ok (bs : List (List Char)) :
    ∀ l, parse_blocks bs = .ok l →
      l = bs.filterMap (fun b => match parse_block b with
        | .ok o => o
        | .error _ => none) := by
  induction bs with
  | nil => intro l h; cases h; rfl
  | cons b bs ih =>
    intro l h
    rw [parse_blocks] at h
    rw [List.filterMap_cons]
    revert h
    split
    · intro h; cases h
    · rename_i heq
      intro h
      rw [heq]
      exact ih l h
    · rename_i c heq
      intro h
      rw [heq]
      cases hpb : parse_blocks bs with
      | error e => rw [hpb] at h; cases h
      | ok l' =>
        rw [hpb] at h
        cases h
        rw [ih l' hpb]

/-! ### The claims -/

/-- Claim C1, counterexample: the claim says `parse_srt` never raises on a
malformed block, including a block whose second line contains `" --> "` but
whose timestamps are not of the `HH:MM:SS,mmm` form.  On such a block the
code raises `ValueError` (here: returns `.error ()`): the timestamps
`00:00` fail the 3-way unpacking of `split(":")` inside `time_to_seconds`. -/
theorem parse_raises_on_malformed_timestamp :
    parse_srt ("1\n00:00 --> 00:01\nhi".data) = .error () := by rfl

/-- Claim C1, amended: the parser never raises on a block with fewer than 3
lines or whose second line lacks the `" --> "` separator; when it raises
(other than on unreadable input), the offending block has at least 3 lines
and its second line contains `" --> "`, and the failure comes from the
timestamp stage (`time_to_seconds` or the 2-tuple unpacking). -/
theorem parse_error_only_from_timestamp_blocks (content : List Char)
    (h : parse_srt content = .error ()) :
    ∃ b ∈ pySplitS ['\n', '\n'] (pyStrip content),
      ¬ (blockLines b).length < 3 ∧
      2 ≤ (pySplitS arrowSep (timeRangeOf b)).length ∧
      parse_block b = .error () := by
  obtain ⟨b, hb, he⟩ := parse_blocks_error _ h
  obtain ⟨h3, ha⟩ := parse_block_error_shape b he
  exact ⟨b, hb, h3, ha, he⟩

/-- Witness for the amended claim C1 at a concrete malformed input. -/
theorem parse_error_only_from_timestamp_blocks_witness :
    ∃ b ∈ pySplitS ['\n', '\n'] (pyStrip ("1\n00:00 --> 00:01\nhi".data)),
      ¬ (blockLines b).length < 3 ∧
      2 ≤ (pySplitS arrowSep (timeRangeOf b)).length ∧
      parse_block b = .error () :=
  parse_error_only_from_timestamp_blocks ("1\n00:00 --> 00:01\nhi".data) (by rfl)

/-- Claim C4: for every cue whose `start_time` is less than the cursor's
`previous_end_time`, the computed silence duration is exactly 0; it is never
negative; and in general it equals
`max(0, (start_time - previous_end_time) * 1000)` milliseconds. -/
theorem gap_clamped_nonnegative (prev : ℚ) (c : Cue) :
    (c.start_time < prev → silence_duration prev c = 0) ∧
    0 ≤ silence_duration prev c ∧
    silence_duration prev c = max 0 ((c.start_time - prev) * 1000) :=
  ⟨fun h => silence_duration_of_le prev c (le_of_lt h), le_max_left 0 _, rfl⟩

/-- Witness for claim C4: a cue starting at 3 s against a cursor at 5 s
gets a zero-length gap. -/
theorem gap_clamped_nonnegative_witness :
    silence_duration 5 ⟨[], 3, 4, []⟩ = 0 :=
  (gap_clamped_nonnegative 5 ⟨[], 3, 4, []⟩).1 (by norm_num)

/-- Claim C5: for every timestamp of the form `HH:MM:SS,mmm` (each component
a non-empty digit string), the conversion to seconds equals
`H*3600 + M*60 + S + ms/1000`; in particular `12:34:56,789` converts to
`45296.789` seconds. -/
theorem time_to_seconds_formula :
    (∀ hS mS sS msS : List Char,
      hS ≠ [] → hS.all Char.isDigit → mS ≠ [] → mS.all Char.isDigit →
      sS ≠ [] → sS.all Char.isDigit → msS ≠ [] → msS.all Char.isDigit →
      time_to_seconds (hS ++ ':' :: mS ++ ':' :: sS ++ ',' :: msS)
        = some ((digitsToNat hS : ℚ) * 3600 + (digitsToNat mS : ℚ) * 60
            + (digitsToNat sS : ℚ) + (digitsToNat msS : ℚ) / 1000)) ∧
    time_to_seconds "12:34:56,789".data = some (45296.789 : ℚ) := by
  have noColon : ∀ (l : List Char), l.all Char.isDigit → ∀ a ∈ l, a ≠ ':' := by
    intro l hl a ha
    exact digit_ne_of_not_digit a ':' (List.all_eq_true.mp hl a ha) (by decide)
  have noComma : ∀ (l : List Char), l.all Char.isDigit → ∀ a ∈ l, a ≠ ',' := by
    intro l hl a ha
    exact digit_ne_of_not_digit a ',' (List.all_eq_true.mp hl a ha) (by decide)
  have main : ∀ hS mS sS msS : List Char,
      hS ≠ [] → hS.all Char.isDigit → mS ≠ [] → mS.all Char.isDigit →
      sS ≠ [] → sS.all Char.isDigit → msS ≠ [] → msS.all Char.isDigit →
      time_to_seconds (hS ++ ':' :: mS ++ ':' :: sS ++ ',' :: msS)
        = some ((digitsToNat hS : ℚ) * 3600 + (digitsToNat mS : ℚ) * 60
            + (digitsToNat sS : ℚ) + (digitsToNat msS : ℚ) / 1000) := by
    intro hS mS sS msS hne1 hd1 hne2 hd2 hne3 hd3 hne4 hd4
    have hfree : ∀ a ∈ sS ++ ',' :: msS, a ≠ ':' := by
      intro a ha
      rcases List.mem_append.mp ha with h | h
      · exact noColon sS hd3 a h
      · rcases List.mem_cons.mp h with h | h
        · rw [h]; decide
        · exact noColon msS hd4 a h
    have hs1 : pySplit1 ':' (hS ++ ':' :: (mS ++ ':' :: (sS ++ ',' :: msS)))
        = [hS, mS, sS ++ ',' :: msS] := by
      rw [pySplit1_append_sep ':' hS _ (noColon hS hd1)]
      rw [pySplit1_append_sep ':' mS _ (noColon mS hd2)]
      rw [pySplit1_sepFree ':' _ hfree]
    have hs2 : pySplit1 ',' (sS ++ ',' :: msS) = [sS, msS] := by
      rw [pySplit1_append_sep ',' sS msS (noComma sS hd3)]
      rw [pySplit1_sepFree ',' msS (noComma msS hd4)]
    unfold time_to_seconds
    simp only [List.append_assoc, List.cons_append]
    simp only [hs1, hs2, pyInt_digits hS hne1 hd1, pyInt_digits mS hne2 hd2,
      pyInt_digits sS hne3 hd3, pyInt_digits msS hne4 hd4]
    push_cast
    rfl
  refine ⟨main, ?_⟩
  have heq : "12:34:56,789".data
      = "12".data ++ ':' :: "34".data ++ ':' :: "56".data ++ ',' :: "789".data := by rfl
  rw [heq, main "12".data "34".data "56".data "789".data
    (by decide) (by decide) (by decide) (by decide)
    (by decide) (by decide) (by decide) (by decide)]
  rw [show digitsToNat "12".data = 12 from rfl, show digitsToNat "34".data = 34 from rfl,
    show digitsToNat "56".data = 56 from rfl, show digitsToNat "789".data = 789 from rfl]
  norm_num

/-- Witness for claim C5 at the concrete timestamp `12:34:56,789`. -/
theorem time_to_seconds_formula_witness :
    time_to_seconds ("12".data ++ ':' :: "34".data ++ ':' :: "56".data ++ ',' :: "789".data)
      = some ((digitsToNat "12".data : ℚ) * 3600 + (digitsToNat "34".data : ℚ) * 60
          + (digitsToNat "56".data : ℚ) + (digitsToNat "789".data : ℚ) / 1000) :=
  time_to_seconds_formula.1 "12".data "34".data "56".data "789".data
    (by decide) (by decide) (by decide) (by decide)
    (by decide) (by decide) (by decide) (by decide)

/-- Claim C6: the timeline cursor `previous_end_time` starts at 0 and,
after each cue is processed, equals that cue's `end_time` unconditionally:
`process_cue` always sets it to the cue's end time (whether or not an
export happened, and whether or not synthesis occurred), and after any run
ending with cue `c` the cursor equals `c.end_time`. -/
theorem cursor_advances_unconditionally :
    initState.previous_end_time = 0 ∧
    (∀ (cs : Nat) (st : LoopState) (i : Nat) (c : Cue),
      (process_cue cs st i c).previous_end_time = c.end_time) ∧
    (∀ (cs i : Nat) (st : LoopState) (cues : List Cue) (c : Cue),
      (run_loop cs i st (cues ++ [c])).previous_end_time = c.end_time) := by
  refine ⟨rfl, ?_, ?_⟩
  · intro cs st i c
    unfold process_cue
    split <;> split <;> rfl
  · intro cs i st cues c
    rw [run_loop_append]
    show (process_cue cs (run_loop cs i st cues) (i + cues.length) c).previous_end_time
        = c.end_time
    unfold process_cue
    split <;> split <;> rfl

/-- Claim C7: a block with fewer than 3 lines, or whose second line does not
contain `" --> "`, is skipped (contributes zero cues, no exception), and the
output cue sequence is exactly the source-order filterMap of the well-formed
blocks. -/
theorem malformed_blocks_skipped :
    (∀ b : List Char, (blockLines b).length < 3 → parse_block b = .ok none) ∧
    (∀ b : List Char, (pySplitS arrowSep (timeRangeOf b)).length ≤ 1 →
      parse_block b = .ok none) ∧
    (∀ (bs : List (List Char)) (l : List Cue), parse_blocks bs = .ok l →
      l = bs.filterMap (fun b => match parse_block b with
        | .ok o => o
        | .error _ => none)) :=
  ⟨parse_block_short, parse_block_no_arrow, fun bs l h => parse_blocks_ok bs l h⟩

/-- Witness for claim C7: a two-line block is skipped. -/
theorem malformed_blocks_skipped_witness :
    parse_block ("1\n00:00:01,000 --> 00:00:02,000".data) = .ok none :=
  malformed_blocks_skipped.1 ("1\n00:00:01,000 --> 00:00:02,000".data) (by decide)

/-- Claim C9: invoking the pipeline on a nonexistent input path reports the
missing-input failure, with the output directory not created and no parsing
or audio processing performed, whatever the file content, chunk size and
synthesis behaviour would have been. -/
theorem missing_input_fails_before_output_dir
    (content : List Char) (chunk_size : Nat) (synthLen : List Char → ℚ) :
    srt_to_audio false content chunk_size synthLen = (false, RunOutcome.missingInput) := rfl

lemma srt_to_audio_core_eq (subs : List Cue) (cs : Nat) (sl : List Char → ℚ) :
    srt_to_audio_core subs cs sl =
      if 0 < bufLen sl (run_loop cs 0 initState subs).final_audio then
        (run_loop cs 0 initState subs).exported
          ++ [((run_loop cs 0 initState subs).part_number,
               (run_loop cs 0 initState subs).final_audio)]
      else (run_loop cs 0 initState subs).exported := rfl

/-- Claim C8: in every run, the part numbers of the output units are
`1, 2, …, n` in export order: they start at 1, increase strictly with export
order, and no two output units share a part number. -/
theorem part_numbers_strictly_increasing
    (subs : List Cue) (cs : Nat) (sl : List Char → ℚ) (_hcs : 0 < cs) :
    (srt_to_audio_core subs cs sl).map Prod.fst
      = List.range' 1 (srt_to_audio_core subs cs sl).length := by
  obtain ⟨hmap, hp⟩ := run_loop_parts cs subs 0 initState rfl (le_refl 1)
  rw [srt_to_audio_core_eq]
  have hexp : (run_loop cs 0 initState subs).exported.length
      = (run_loop cs 0 initState subs).part_number - 1 := by
    have := congrArg List.length hmap
    simpa using this
  split
  · rw [List.map_append, hmap, List.length_append, hexp]
    simp only [List.map_cons, List.map_nil, List.length_cons, List.length_nil]
    have hpp : (run_loop cs 0 initState subs).part_number - 1 + (0 + 1)
        = ((run_loop cs 0 initState subs).part_number - 1) + 1 := by omega
    rw [hpp, List.range'_1_concat]
    congr 2
    omega
  · rw [hmap, hexp]

/-- Witness for claim C8 on a concrete one-cue run. -/
theorem part_numbers_strictly_increasing_witness :
    (srt_to_audio_core [] 5 (fun _ => 0)).map Prod.fst
      = List.range' 1 (srt_to_audio_core [] 5 (fun _ => 0)).length :=
  part_numbers_strictly_increasing [] 5 (fun _ => 0) (by norm_num)

/-- Claim C10: the final remainder export after the cue loop occurs exactly
when the running buffer has positive length: (1)/(2) the remainder file is
appended iff `len(final_audio) > 0`; (3) a run with zero parsed cues
produces zero output files; (4) a cue count that is an exact multiple of
`chunk_size` produces no extra trailing file; (5) trailing cues past the
last full chunk that contribute zero audio (empty stripped text and
non-positive gap) produce no final file. -/
theorem remainder_export_iff_nonempty_buffer
    (subs : List Cue) (cs : Nat) (sl : List Char → ℚ) :
    (0 < bufLen sl (run_loop cs 0 initState subs).final_audio →
      srt_to_audio_core subs cs sl
        = (run_loop cs 0 initState subs).exported
          ++ [((run_loop cs 0 initState subs).part_number,
               (run_loop cs 0 initState subs).final_audio)]) ∧
    (¬ 0 < bufLen sl (run_loop cs 0 initState subs).final_audio →
      srt_to_audio_core subs cs sl = (run_loop cs 0 initState subs).exported) ∧
    (subs = [] → srt_to_audio_core subs cs sl = []) ∧
    (0 < cs → subs.length % cs = 0 →
      srt_to_audio_core subs cs sl = (run_loop cs 0 initState subs).exported) ∧
    (∀ tail : List Cue, tail.length < cs → subs.length % cs = 0 →
      zeroContrib (run_loop cs 0 initState subs).previous_end_time tail →
      srt_to_audio_core (subs ++ tail) cs sl = (run_loop cs 0 initState subs).exported) := by
  have hpos : ∀ h : 0 < bufLen sl (run_loop cs 0 initState subs).final_audio,
      srt_to_audio_core subs cs sl
        = (run_loop cs 0 initState subs).exported
          ++ [((run_loop cs 0 initState subs).part_number,
               (run_loop cs 0 initState subs).final_audio)] := by
    intro h
    rw [srt_to_audio_core_eq, if_pos h]
  have hneg : ∀ _ : ¬ 0 < bufLen sl (run_loop cs 0 initState subs).final_audio,
      srt_to_audio_core subs cs sl = (run_loop cs 0 initState subs).exported := by
    intro h
    rw [srt_to_audio_core_eq, if_neg h]
  have hchunks : 0 < cs → subs.length % cs = 0 →
      (run_loop cs 0 initState subs).final_audio = [] := by
    intro hcs hmod
    exact run_loop_chunks cs hcs (subs.length / cs) subs 0 initState
      (Nat.zero_mod cs) (by rw [Nat.div_mul_cancel (Nat.dvd_of_mod_eq_zero hmod)]) rfl
  refine ⟨hpos, hneg, ?_, ?_, ?_⟩
  · intro h
    subst h
    rw [hneg (by rw [show (run_loop cs 0 initState []).final_audio = [] from rfl,
      bufLen_nil]; norm_num)]
    rfl
  · intro hcs hmod
    exact hneg (by rw [hchunks hcs hmod, bufLen_nil]; norm_num)
  · intro tail htl hmod hz
    have hcs : 0 < cs := lt_of_le_of_lt (Nat.zero_le _) htl
    have hmain := hchunks hcs hmod
    have hnb : run_loop cs subs.length (run_loop cs 0 initState subs) tail
        = ⟨(run_loop cs 0 initState subs).final_audio
            ++ assembleSeg (run_loop cs 0 initState subs).previous_end_time tail,
          endAfter (run_loop cs 0 initState subs).previous_end_time tail,
          (run_loop cs 0 initState subs).part_number,
          (run_loop cs 0 initState subs).exported⟩ := by
      refine run_loop_no_boundary cs tail subs.length _ ?_
      intro j hj
      rw [Nat.add_assoc, Nat.add_mod, hmod]
      simp [Nat.mod_eq_of_lt (show j + 1 < cs by omega)]
    rw [srt_to_audio_core_eq, run_loop_append, Nat.zero_add, hnb]
    rw [if_neg ?_]
    simp only [hmain, List.nil_append]
    rw [zeroContrib_bufLen sl tail _ hz]
    norm_num

/-- Witness for claim C10: the empty run yields no output files. -/
theorem remainder_export_iff_nonempty_buffer_witness :
    srt_to_audio_core [] 100 (fun _ => 0) = [] :=
  (remainder_export_iff_nonempty_buffer [] 100 (fun _ => 0)).2.2.1 rfl

/-- Claim C3: on the two-cue input (cue A: `start=0, end=1, text="hi"`;
cue B: `start=3, end=4, text=""`) with `chunk_size = 10`, the pipeline
produces exactly one output unit whose content is, in order: 0 ms of
silence, the synthesized audio for `"hi"`, 2000 ms of silence, and nothing
further. -/
theorem end_to_end_two_cue_single_output (sl : List Char → ℚ)
    (h : 0 ≤ sl "hi".data) :
    srt_to_audio_core [⟨"1".data, 0, 1, "hi".data⟩, ⟨"2".data, 3, 4, []⟩] 10 sl
      = [(1, [AudioTok.silence 0, AudioTok.synth "hi".data, AudioTok.silence 2000])] := by
  have hA : cueToks 0 ⟨"1".data, 0, 1, "hi".data⟩
      = [AudioTok.silence 0, AudioTok.synth "hi".data] := by
    rw [cueToks, if_pos (by decide)]
    norm_num [silence_duration, generate_silence]
  have hB : cueToks 1 ⟨"2".data, 3, 4, []⟩ = [AudioTok.silence 2000] := by
    rw [cueToks, if_neg (by decide)]
    norm_num [silence_duration, generate_silence]
  have hrun := run_loop_no_boundary 10
    [⟨"1".data, 0, 1, "hi".data⟩, ⟨"2".data, 3, 4, []⟩] 0 initState (by decide)
  rw [srt_to_audio_core_eq, hrun]
  simp only [show initState.previous_end_time = (0 : ℚ) from rfl,
    show initState.final_audio = ([] : List AudioTok) from rfl,
    show initState.part_number = 1 from rfl,
    show initState.exported = ([] : List (Nat × List AudioTok)) from rfl,
    assembleSeg, hA, hB, List.nil_append, List.append_nil, List.cons_append]
  split
  · rfl
  · rename_i hcon
    exfalso
    apply hcon
    simp only [bufLen, List.map_cons, List.map_nil, List.sum_cons, List.sum_nil]
    linarith [h, show sl "hi".data = sl ('h' :: 'i' :: []) from rfl]

/-- Witness for claim C3 with a concrete synthesized-audio duration. -/
theorem end_to_end_two_cue_single_output_witness :
    srt_to_audio_core [⟨"1".data, 0, 1, "hi".data⟩, ⟨"2".data, 3, 4, []⟩] 10 (fun _ => 500)
      = [(1, [AudioTok.silence 0, AudioTok.synth "hi".data, AudioTok.silence 2000])] :=
  end_to_end_two_cue_single_output (fun _ => 500) (by norm_num)

lemma zeroContrib_replicate (c : Cue) (e : ℚ) (hc : c.end_time = e)
    (ht : pyStrip c.text = []) (hs : c.start_time ≤ e) :
    ∀ n : Nat, zeroContrib e (List.replicate n c) := by
  intro n
  induction n with
  | zero => trivial
  | succ n ih =>
    rw [List.replicate_succ]
    exact ⟨ht, le_of_le_of_eq hs rfl, by rw [hc]; exact ih⟩

lemma run_loop_250_100 (subs : List Cue) (hlen : subs.length = 250) :
    run_loop 100 0 initState subs =
      ⟨assembleSeg (endAfter 0 (subs.take 200)) (subs.drop 200),
        endAfter 0 subs, 3,
        [(1, assembleSeg 0 (subs.take 100)),
         (2, assembleSeg (endAfter 0 (subs.take 100)) ((subs.drop 100).take 100))]⟩ := by
  have l1 : (subs.take 100).length = 100 := by rw [List.length_take]; omega
  have l2 : ((subs.drop 100).take 100).length = 100 := by
    rw [List.length_take, List.length_drop]; omega
  have l3 : (subs.drop 200).length = 50 := by rw [List.length_drop]; omega
  have hdd : (subs.drop 100).drop 100 = subs.drop 200 := by
    rw [List.drop_drop]
  have hsplit2 : (subs.drop 100).take 100 ++ subs.drop 200 = subs.drop 100 := by
    rw [← hdd]; exact List.take_append_drop 100 (subs.drop 100)
  have hsplit1 : subs.take 100 ++ ((subs.drop 100).take 100 ++ subs.drop 200) = subs := by
    rw [hsplit2]; exact List.take_append_drop 100 subs
  have htake200 : subs.take 200 = subs.take 100 ++ (subs.drop 100).take 100 := by
    rw [show (200 : Nat) = 100 + 100 from rfl, List.take_add]
  have he200 : endAfter (endAfter 0 (subs.take 100)) ((subs.drop 100).take 100)
      = endAfter 0 (subs.take 200) := by
    rw [htake200, endAfter_append]
  have heAll : endAfter (endAfter 0 (subs.take 200)) (subs.drop 200)
      = endAfter 0 subs := by
    rw [← endAfter_append, List.take_append_drop]
  conv_lhs => rw [← hsplit1]
  rw [run_loop_append,
    run_loop_full_chunk 100 (by norm_num) 0 initState (subs.take 100) (by norm_num) l1,
    run_loop_append]
  simp only [l1, l2, Nat.zero_add]
  rw [run_loop_full_chunk 100 (by norm_num) 100 _ ((subs.drop 100).take 100)
    (by norm_num) l2]
  rw [run_loop_no_boundary 100 (subs.drop 200) (100 + 100) _ ?_]
  · simp only [show initState.previous_end_time = (0 : ℚ) from rfl,
      show initState.final_audio = ([] : List AudioTok) from rfl,
      show initState.part_number = 1 from rfl,
      show initState.exported = ([] : List (Nat × List AudioTok)) from rfl,
      List.nil_append, he200, heAll]
    norm_num
  · intro j hj
    rw [l3] at hj
    omega

/-- Claim C2, counterexample: the claim asserts that every run with
`chunk_size = 100` over exactly 250 cues produces exactly 3 output units.
For 250 cues that all contribute zero audio (empty text, zero gap) the
remainder buffer after the two full chunks has length 0, so the trailing
`if len(final_audio) > 0` check skips the third file: only 2 units are
produced. -/
theorem chunk_250_two_outputs_when_silent :
    (srt_to_audio_core (List.replicate 250 (⟨[], 0, 0, []⟩ : Cue)) 100
      (fun _ => 0)).length = 2 := by
  have hlen : (List.replicate 250 (⟨[], 0, 0, []⟩ : Cue)).length = 250 := by
    rw [List.length_replicate]
  rw [srt_to_audio_core_eq, run_loop_250_100 _ hlen]
  rw [if_neg ?_]
  · rfl
  · rw [List.drop_replicate, List.take_replicate,
      show (min 200 250 : Nat) = 200 from by decide,
      show (250 - 200 : Nat) = 50 from by decide,
      endAfter_replicate 0 _ rfl 200,
      zeroContrib_bufLen _ _ _
        (zeroContrib_replicate (⟨[], 0, 0, []⟩ : Cue) 0 rfl rfl (le_refl 0) 50)]
    norm_num

/-- Claim C2, amended: with `chunk_size = 100` over exactly 250 cues,
provided the remainder buffer (the audio contributed by the last 50 cues)
has positive length, exactly 3 output units are produced, with part numbers
1, 2, 3 in that order, covering cues in position ranges `[0,100)`,
`[100,200)` and `[200,250)` respectively; without that positivity the
third (remainder) unit is omitted. -/
theorem chunk_250_three_outputs (subs : List Cue) (sl : List Char → ℚ)
    (hlen : subs.length = 250)
    (hpos : 0 < bufLen sl (assembleSeg (endAfter 0 (subs.take 200)) (subs.drop 200))) :
    srt_to_audio_core subs 100 sl
      = [(1, assembleSeg 0 (subs.take 100)),
         (2, assembleSeg (endAfter 0 (subs.take 100)) ((subs.drop 100).take 100)),
         (3, assembleSeg (endAfter 0 (subs.take 200)) (subs.drop 200))] := by
  rw [srt_to_audio_core_eq, run_loop_250_100 subs hlen]
  rw [if_pos hpos]
  rfl

/-- Witness for the amended claim C2: 250 identical cues with `start = 1`,
`end = 0` and empty text give every cue a 1000 ms gap, so the remainder
buffer is non-empty and three files are produced. -/
theorem chunk_250_three_outputs_witness :
    srt_to_audio_core (List.replicate 250 (⟨[], 1, 0, []⟩ : Cue)) 100 (fun _ => 0)
      = [(1, assembleSeg 0 ((List.replicate 250 (⟨[], 1, 0, []⟩ : Cue)).take 100)),
         (2, assembleSeg
              (endAfter 0 ((List.replicate 250 (⟨[], 1, 0, []⟩ : Cue)).take 100))
              (((List.replicate 250 (⟨[], 1, 0, []⟩ : Cue)).drop 100).take 100)),
         (3, assembleSeg
              (endAfter 0 ((List.replicate 250 (⟨[], 1, 0, []⟩ : Cue)).take 200))
              ((List.replicate 250 (⟨[], 1, 0, []⟩ : Cue)).drop 200))] :=
  chunk_250_three_outputs (List.replicate 250 (⟨[], 1, 0, []⟩ : Cue)) (fun _ => 0)
    (by rw [List.length_replicate])
    (by
      rw [List.drop_replicate, List.take_replicate,
        show (min 200 250 : Nat) = 200 from by decide,
        show (250 - 200 : Nat) = 50 from by decide,
        endAfter_replicate 0 _ rfl 200,
        assembleSeg_replicate 0 _ rfl 50,
        bufLen_join_replicate _ _ 50,
        show cueToks 0 (⟨[], 1, 0, []⟩ : Cue) = [AudioTok.silence 1000] from by
          rw [cueToks, if_neg (by decide)]
          norm_num [silence_duration, generate_silence],
        show bufLen (fun _ => (0 : ℚ)) [AudioTok.silence 1000] = 1000 from by
          simp [bufLen]]
      norm_num)

end BarkSrt
